import Mathlib

/-!
Shallow embedding of `src/dalle_mini/model/modeling.py` (DalleBart).

The numeric tensor kernels (attention softmax, layer norm, …) and file I/O
live in external libraries (jax, flax, transformers) and are treated as
black boxes, exactly as the specification's scope section prescribes; the
control flow, shape bookkeeping, checkpoint reconciliation and caching
protocol of the repository's own code are modelled faithfully below.
-/

namespace DalleBart

/-- Flattened parameter path, as produced by `flatten_dict`: a tuple of
module-path segments. -/
abbrev Key := List String

/-- A tensor, abstracted to its shape plus an opaque payload that lets us
distinguish values (e.g. checkpoint value vs freshly initialized value). -/
structure Tensor where
  shape : List Nat
  payload : Nat
deriving DecidableEq, Repr

/-- A flat parameter mapping (Python dict of path ↦ tensor), modelled as an
association list in iteration order. -/
abbrev FlatDict := List (Key × Tensor)

/-- Dictionary lookup (`d[k]`, first match). -/
def flookup (k : Key) : FlatDict → Option Tensor
  | [] => none
  | (k', t) :: rest => if k' = k then some t else flookup k rest

/-- The key list of a flat dict (`d.keys()`, in iteration order). -/
def keysOf (d : FlatDict) : List Key := d.map Prod.fst

@[simp] theorem flookup_nil (k : Key) : flookup k [] = none := rfl

@[simp] theorem flookup_cons (k k' : Key) (t : Tensor) (rest : FlatDict) :
    flookup k ((k', t) :: rest) = if k' = k then some t else flookup k rest := rfl

@[simp] theorem keysOf_nil : keysOf [] = [] := rfl

@[simp] theorem keysOf_cons (k : Key) (t : Tensor) (rest : FlatDict) :
    keysOf ((k, t) :: rest) = k :: keysOf rest := rfl

theorem flookup_eq_none_iff (k : Key) (d : FlatDict) :
    flookup k d = none ↔ k ∉ keysOf d := by
  induction d with
  | nil => simp
  | cons kv rest ih =>
    obtain ⟨k', t⟩ := kv
    by_cases h : k' = k
    · simp [h]
    · have h' : ¬ k = k' := fun hx => h hx.symm
      simp [h, h', ih]

theorem flookup_isSome_iff (k : Key) (d : FlatDict) :
    (flookup k d).isSome ↔ k ∈ keysOf d := by
  rw [Option.isSome_iff_ne_none]
  have := flookup_eq_none_iff k d
  tauto

theorem mem_of_flookup_eq_some {k : Key} {t : Tensor} {d : FlatDict}
    (h : flookup k d = some t) : (k, t) ∈ d := by
  induction d with
  | nil => simp at h
  | cons kv rest ih =>
    obtain ⟨k', t'⟩ := kv
    by_cases hk : k' = k
    · subst hk
      simp at h
      simp [h]
    · simp [hk] at h
      simp [ih h]

theorem flookup_eq_some_of_mem {k : Key} {t : Tensor} {d : FlatDict}
    (hnd : (keysOf d).Nodup) (h : (k, t) ∈ d) : flookup k d = some t := by
  induction d with
  | nil => simp at h
  | cons kv rest ih =>
    obtain ⟨k', t'⟩ := kv
    simp only [keysOf_cons, List.nodup_cons] at hnd
    rcases List.mem_cons.mp h with h1 | h1
    · rw [Prod.mk.injEq] at h1
      simp [h1.1, h1.2]
    · have hne : k' ≠ k := by
        rintro rfl
        exact hnd.1 (List.mem_map.mpr ⟨(k', t), h1, rfl⟩)
      simp [hne, ih hnd.2 h1]

/-!
### Attention module construction (`FlaxBartAttention.setup`, lines 74-99)

Python computes `head_dim = embed_dim // num_heads` and raises `ValueError`
when `head_dim * num_heads != embed_dim`.  When `num_heads = 0` the floor
division itself raises `ZeroDivisionError`.  Both exceptions abort setup.
-/

/-- `FlaxBartAttention.setup` head-splitting check: returns the head width on
success, an error message on failure. -/
def attentionSetup (embed_dim num_heads : Nat) : Except String Nat :=
  if num_heads = 0 then
    .error "ZeroDivisionError: integer division or modulo by zero"
  else
    let head_dim := embed_dim / num_heads
    if head_dim * num_heads ≠ embed_dim then
      .error "embed_dim must be divisible by num_heads"
    else
      .ok head_dim

/-!
### `DalleBart.decode` input resolution (lines 735-752)

The optional-argument handling at the top of `decode`: the encoder mask
defaults to ones over the encoder output shape, the decoder mask to ones over
the decoder input shape, and the position ids either raise (cache present) or
default to a broadcast `arange`.
-/

/-- An all-ones `(b, s)` attention mask (`jnp.ones((b, s))`). -/
def onesMat (b s : Nat) : List (List Int) :=
  List.replicate b (List.replicate s 1)

/-- `jnp.broadcast_to(jnp.arange(s)[None, :], (b, s))`. -/
def broadcastRange (b s : Nat) : List (List Int) :=
  List.replicate b ((List.range s).map Int.ofNat)

/-- Per-layer decoding cache: a buffer length and a fill cursor
(the key/value payloads are opaque to the bookkeeping modelled here). -/
structure LayerCache where
  len : Nat
  cursor : Nat
deriving DecidableEq, Repr

/-- The `past_key_values` cache: one slot per decoder layer. -/
abbrev PastCache := List LayerCache

/-- The three mask/position tensors after `decode`'s default resolution. -/
structure DecodeResolved where
  encoderAttentionMask : List (List Int)
  decoderAttentionMask : List (List Int)
  decoderPositionIds : List (List Int)
deriving DecidableEq, Repr

/-- `DalleBart.decode` lines 735-752: resolve the optional
`encoder_attention_mask`, `decoder_attention_mask` and
`decoder_position_ids` arguments.  `encBatch`/`encSeq` come from
`encoder_hidden_states.shape[:2]`, `batch`/`seq` from
`decoder_input_ids.shape`.  Omitting position ids while supplying
`past_key_values` raises `ValueError` (the check is `is not None`, so even an
empty cache dict raises). -/
def decodeResolveInputs (encBatch encSeq batch seq : Nat)
    (encoder_attention_mask decoder_attention_mask decoder_position_ids :
      Option (List (List Int)))
    (past_key_values : Option PastCache) : Except String DecodeResolved :=
  let encMask := encoder_attention_mask.getD (onesMat encBatch encSeq)
  let decMask := decoder_attention_mask.getD (onesMat batch seq)
  match decoder_position_ids with
  | some p => .ok ⟨encMask, decMask, p⟩
  | none =>
    match past_key_values with
    | some _ =>
      .error "Make sure to provide `decoder_position_ids` when passing `past_key_values`."
    | none => .ok ⟨encMask, decMask, broadcastRange batch seq⟩

/-!
### Checkpoint deserialization error handling (lines 509-526)

`from_bytes` is external; we take its outcome as a parameter (`some state` on
success, `none` when it raises `UnpicklingError`/`ExtraData`).  On failure the
file is re-read as text: `decodedText = none` models a `UnicodeDecodeError`.
A text file starting with `"version"` is a git-lfs pointer and gets the
specific actionable `OSError`; otherwise the inner `ValueError` is caught and
re-raised as the generic `EnvironmentError`.
-/

/-- The two diagnostics the deserialization block can abort with. -/
inductive CheckpointLoadError where
  /-- `OSError`: "You seem to have cloned a repository without having git-lfs
  installed. …" -/
  | gitLfsPointer : CheckpointLoadError
  /-- `EnvironmentError`: "Unable to convert {archive_file} to Flax
  deserializable object." -/
  | unableToConvert : CheckpointLoadError
deriving DecidableEq, Repr

/-- Python's `text.startswith("version")`: the decoded file text begins with
the git-lfs pointer marker. -/
def startsWithVersionMarker (text : String) : Bool :=
  "version".toList.isPrefixOf text.toList

/-- Lines 509-526 of `from_pretrained`: outcome of deserializing the resolved
checkpoint file. -/
def deserializeCheckpoint {σ : Type} (parsed : Option σ)
    (decodedText : Option String) : Except CheckpointLoadError σ :=
  match parsed with
  | some s => .ok s
  | none =>
    match decodedText with
    | some text =>
      if startsWithVersionMarker text then .error .gitLfsPointer
      else .error .unableToConvert
    | none => .error .unableToConvert

/-!
### Checkpoint reconciliation (`from_pretrained`, lines 544-617)

After flattening, `state` is the checkpoint's flat dict and `random_state`
the freshly initialized model's flat dict; `model.required_params` is exactly
the key set of `random_state` (both are built from `model.params`).  The code
then (1) walks `state`, and for every key also present in `random_state`
whose shapes differ either raises `ValueError` (default) or substitutes the
fresh tensor and records the triple; (2) inserts every missing key with its
fresh tensor; (3) deletes every unexpected key.
-/

/-- The payload of the `ValueError` raised on a shape mismatch: it names the
offending key, the checkpoint shape and the model shape. -/
structure MismatchError where
  key : Key
  checkpointShape : List Nat
  modelShape : List Nat
deriving DecidableEq, Repr

/-- A recorded mismatch triple `(key, checkpoint shape, model shape)`. -/
abbrev MismatchTriple := Key × List Nat × List Nat

/-- The `for key in state.keys()` loop (lines 554-567): walk the checkpoint
entries in order; at the first shape mismatch raise unless
`ignore_mismatched_sizes`, in which case substitute the freshly initialized
tensor and record the triple. -/
def reconcileMismatches (ignore_mismatched_sizes : Bool) (random_state : FlatDict) :
    FlatDict → Except MismatchError (FlatDict × List MismatchTriple)
  | [] => .ok ([], [])
  | (key, t) :: rest =>
    match flookup key random_state with
    | some rt =>
      if t.shape ≠ rt.shape then
        if ignore_mismatched_sizes then
          match reconcileMismatches ignore_mismatched_sizes random_state rest with
          | .ok (st, ms) => .ok ((key, rt) :: st, (key, t.shape, rt.shape) :: ms)
          | .error e => .error e
        else
          .error ⟨key, t.shape, rt.shape⟩
      else
        match reconcileMismatches ignore_mismatched_sizes random_state rest with
        | .ok (st, ms) => .ok ((key, t) :: st, ms)
        | .error e => .error e
    | none =>
      match reconcileMismatches ignore_mismatched_sizes random_state rest with
      | .ok (st, ms) => .ok ((key, t) :: st, ms)
      | .error e => .error e

/-- Lines 544-617 of `from_pretrained`: reconcile the flattened checkpoint
`state` against the freshly initialized `random_state` (whose key set is the
model's required-parameter set).  Returns the reconciled flat dict together
with the recorded mismatch triples, or the `ValueError` payload. -/
def fromPretrainedReconcile (ignore_mismatched_sizes : Bool)
    (random_state state : FlatDict) :
    Except MismatchError (FlatDict × List MismatchTriple) :=
  match reconcileMismatches ignore_mismatched_sizes random_state state with
  | .error e => .error e
  | .ok (st, mismatched_keys) =>
    let required := keysOf random_state
    let stateKeys := keysOf state
    let missing_keys := required.filter (fun k => k ∉ stateKeys)
    let withMissing :=
      st ++ missing_keys.filterMap (fun k => (flookup k random_state).map ((k, ·)))
    let final := withMissing.filter (fun kv => kv.1 ∈ required)
    .ok (final, mismatched_keys)

/-! Supporting lemmas about the reconciliation pass. -/

theorem flookup_append (k : Key) (a b : FlatDict) :
    flookup k (a ++ b) =
      match flookup k a with
      | some t => some t
      | none => flookup k b := by
  induction a with
  | nil => simp
  | cons kv rest ih =>
    obtain ⟨k', t⟩ := kv
    by_cases h : k' = k <;> simp [h, ih]

theorem flookup_filter_key (p : Key → Bool) (k : Key) (d : FlatDict) :
    flookup k (d.filter (fun kv => p kv.1)) =
      if p k then flookup k d else none := by
  induction d with
  | nil => simp
  | cons kv rest ih =>
    obtain ⟨k', t⟩ := kv
    by_cases h : k' = k
    · subst h
      by_cases hp : p k' <;> simp [List.filter_cons, hp, ih]
    · by_cases hp : p k' <;> simp [List.filter_cons, hp, h, ih]

theorem flookup_filterMap_of_nodup (f : Key → Option Tensor) (k : Key) :
    ∀ ks : List Key, ks.Nodup →
      flookup k (ks.filterMap (fun k' => (f k').map ((k', ·)))) =
        if k ∈ ks then f k else none := by
  intro ks
  induction ks with
  | nil => simp
  | cons k0 rest ih =>
    intro hnd
    rw [List.nodup_cons] at hnd
    by_cases hk : k0 = k
    · subst hk
      cases hf : f k0 with
      | none => simp [List.filterMap_cons, hf, ih hnd.2, hnd.1]
      | some t => simp [List.filterMap_cons, hf]
    · cases hf : f k0 with
      | none =>
        rw [List.filterMap_cons, hf]
        simp only [Option.map_none']
        rw [ih hnd.2]
        by_cases hm : k ∈ rest <;> simp [hm, Ne.symm hk]
      | some t =>
        rw [List.filterMap_cons, hf]
        simp only [Option.map_some']
        rw [flookup_cons, if_neg hk, ih hnd.2]
        by_cases hm : k ∈ rest <;> simp [hm, Ne.symm hk]

theorem reconcileMismatches_keys (ig : Bool) (rs : FlatDict) :
    ∀ state st ms, reconcileMismatches ig rs state = .ok (st, ms) →
      keysOf st = keysOf state := by
  intro state
  induction state with
  | nil =>
    intro st ms h
    simp [reconcileMismatches] at h
    simp [h.1.symm]
  | cons kv rest ih =>
    intro st ms h
    obtain ⟨key, t⟩ := kv
    cases hrec : reconcileMismatches ig rs rest with
    | error e =>
      cases hrs : flookup key rs with
      | none => simp [reconcileMismatches, hrs, hrec] at h
      | some rt =>
        by_cases hsh : t.shape ≠ rt.shape
        · cases ig <;> simp [reconcileMismatches, hrs, hrec, hsh] at h
        · simp [reconcileMismatches, hrs, hrec, hsh] at h
    | ok p =>
      obtain ⟨st', ms'⟩ := p
      cases hrs : flookup key rs with
      | none =>
        simp [reconcileMismatches, hrs, hrec] at h
        obtain ⟨h1, _⟩ := h
        simp [← h1, ih st' ms' hrec]
      | some rt =>
        by_cases hsh : t.shape ≠ rt.shape
        · cases ig with
          | false => simp [reconcileMismatches, hrs, hrec, hsh] at h
          | true =>
            simp [reconcileMismatches, hrs, hrec, hsh] at h
            obtain ⟨h1, _⟩ := h
            simp [← h1, ih st' ms' hrec]
        · simp [reconcileMismatches, hrs, hrec, hsh] at h
          obtain ⟨h1, _⟩ := h
          simp [← h1, ih st' ms' hrec]

theorem reconcileMismatches_cons_none (ig : Bool) (rs rest : FlatDict)
    (key : Key) (t : Tensor) (hrs : flookup key rs = none) :
    reconcileMismatches ig rs ((key, t) :: rest) =
      match reconcileMismatches ig rs rest with
      | .ok (st, ms) => .ok ((key, t) :: st, ms)
      | .error e => .error e := by
  rw [reconcileMismatches, hrs]

theorem reconcileMismatches_cons_match (ig : Bool) (rs rest : FlatDict)
    (key : Key) (t rt : Tensor) (hrs : flookup key rs = some rt)
    (hsh : t.shape = rt.shape) :
    reconcileMismatches ig rs ((key, t) :: rest) =
      match reconcileMismatches ig rs rest with
      | .ok (st, ms) => .ok ((key, t) :: st, ms)
      | .error e => .error e := by
  rw [reconcileMismatches, hrs]
  simp [hsh]

theorem reconcileMismatches_cons_mismatch_strict (rs rest : FlatDict)
    (key : Key) (t rt : Tensor) (hrs : flookup key rs = some rt)
    (hsh : t.shape ≠ rt.shape) :
    reconcileMismatches false rs ((key, t) :: rest) =
      .error ⟨key, t.shape, rt.shape⟩ := by
  rw [reconcileMismatches, hrs]
  simp [hsh]

theorem reconcileMismatches_cons_mismatch_permissive (rs rest : FlatDict)
    (key : Key) (t rt : Tensor) (hrs : flookup key rs = some rt)
    (hsh : t.shape ≠ rt.shape) :
    reconcileMismatches true rs ((key, t) :: rest) =
      match reconcileMismatches true rs rest with
      | .ok (st, ms) => .ok ((key, rt) :: st, (key, t.shape, rt.shape) :: ms)
      | .error e => .error e := by
  rw [reconcileMismatches, hrs]
  simp [hsh]

theorem reconcileMismatches_permissive_ok (rs : FlatDict) :
    ∀ state, ∃ st ms, reconcileMismatches true rs state = .ok (st, ms) := by
  intro state
  induction state with
  | nil => exact ⟨[], [], rfl⟩
  | cons kv rest ih =>
    obtain ⟨key, t⟩ := kv
    obtain ⟨st, ms, hrec⟩ := ih
    cases hrs : flookup key rs with
    | none =>
      exact ⟨(key, t) :: st, ms, by rw [reconcileMismatches_cons_none _ _ _ _ _ hrs, hrec]⟩
    | some rt =>
      by_cases hsh : t.shape = rt.shape
      · exact ⟨(key, t) :: st, ms,
          by rw [reconcileMismatches_cons_match _ _ _ _ _ _ hrs hsh, hrec]⟩
      · exact ⟨(key, rt) :: st, (key, t.shape, rt.shape) :: ms,
          by rw [reconcileMismatches_cons_mismatch_permissive _ _ _ _ _ hrs hsh, hrec]⟩

theorem reconcileMismatches_nomismatch_ok (ig : Bool) (rs : FlatDict) :
    ∀ state,
      (∀ k t rt, (k, t) ∈ state → flookup k rs = some rt → t.shape = rt.shape) →
      ∃ st ms, reconcileMismatches ig rs state = .ok (st, ms) := by
  intro state
  induction state with
  | nil => exact fun _ => ⟨[], [], rfl⟩
  | cons kv rest ih =>
    intro hok
    obtain ⟨key, t⟩ := kv
    obtain ⟨st, ms, hrec⟩ := ih (fun k t' rt hmem => hok k t' rt (List.mem_cons_of_mem _ hmem))
    cases hrs : flookup key rs with
    | none =>
      exact ⟨(key, t) :: st, ms, by rw [reconcileMismatches_cons_none _ _ _ _ _ hrs, hrec]⟩
    | some rt =>
      have hsh : t.shape = rt.shape := hok key t rt (List.mem_cons_self _ _) hrs
      exact ⟨(key, t) :: st, ms,
        by rw [reconcileMismatches_cons_match _ _ _ _ _ _ hrs hsh, hrec]⟩

theorem reconcileMismatches_error_of_mismatch (rs : FlatDict) :
    ∀ state : FlatDict, (keysOf state).Nodup →
      ∀ k t rt, (k, t) ∈ state → flookup k rs = some rt → t.shape ≠ rt.shape →
      ∃ e, reconcileMismatches false rs state = .error e ∧
        ∃ t' rt', flookup e.key state = some t' ∧ flookup e.key rs = some rt' ∧
          e.checkpointShape = t'.shape ∧ e.modelShape = rt'.shape ∧
          t'.shape ≠ rt'.shape := by
  intro state
  induction state with
  | nil => intro _ k t rt hmem; simp at hmem
  | cons kv rest ih =>
    intro hnd k t rt hmem hrs hsh
    obtain ⟨k0, t0⟩ := kv
    rw [keysOf_cons, List.nodup_cons] at hnd
    by_cases hhead : ∃ rt0, flookup k0 rs = some rt0 ∧ t0.shape ≠ rt0.shape
    · obtain ⟨rt0, hrs0, hsh0⟩ := hhead
      refine ⟨⟨k0, t0.shape, rt0.shape⟩,
        reconcileMismatches_cons_mismatch_strict _ _ _ _ _ hrs0 hsh0,
        t0, rt0, by simp, hrs0, rfl, rfl, hsh0⟩
    · have hrest : (k, t) ∈ rest := by
        rcases List.mem_cons.mp hmem with h1 | h1
        · rw [Prod.mk.injEq] at h1
          exact absurd ⟨rt, h1.1 ▸ hrs, h1.2 ▸ hsh⟩ hhead
        · exact h1
      obtain ⟨e, herr, t', rt', hlook, hlook', he1, he2, he3⟩ :=
        ih hnd.2 k t rt hrest hrs hsh
      have hkey : e.key ∈ keysOf rest :=
        (flookup_isSome_iff _ _).mp (by simp [hlook])
      have hne : k0 ≠ e.key := fun hx => hnd.1 (hx ▸ hkey)
      refine ⟨e, ?_, t', rt', by simp [hne, hlook], hlook', he1, he2, he3⟩
      cases hrs0 : flookup k0 rs with
      | none => rw [reconcileMismatches_cons_none _ _ _ _ _ hrs0, herr]
      | some rt0 =>
        have hsh0 : t0.shape = rt0.shape := by
          by_contra hx
          exact hhead ⟨rt0, hrs0, hx⟩
        rw [reconcileMismatches_cons_match _ _ _ _ _ _ hrs0 hsh0, herr]

theorem reconcileMismatches_permissive_value (rs : FlatDict) :
    ∀ state st ms, (keysOf state).Nodup →
      reconcileMismatches true rs state = .ok (st, ms) →
      ∀ k t rt, flookup k state = some t → flookup k rs = some rt →
        t.shape ≠ rt.shape →
        flookup k st = some rt ∧ (k, t.shape, rt.shape) ∈ ms := by
  intro state
  induction state with
  | nil => intro st ms _ _ k t rt hlook; simp at hlook
  | cons kv rest ih =>
    intro st ms hnd hok k t rt hlook hrs hsh
    obtain ⟨k0, t0⟩ := kv
    rw [keysOf_cons, List.nodup_cons] at hnd
    by_cases hk : k0 = k
    · subst hk
      rw [flookup_cons, if_pos rfl] at hlook
      injection hlook with hlook
      subst hlook
      rw [reconcileMismatches_cons_mismatch_permissive _ _ _ _ _ hrs hsh] at hok
      cases hrec : reconcileMismatches true rs rest with
      | error e => rw [hrec] at hok; simp at hok
      | ok p =>
        obtain ⟨st', ms'⟩ := p
        rw [hrec] at hok
        simp at hok
        obtain ⟨h1, h2⟩ := hok
        simp [← h1, ← h2]
    · rw [flookup_cons, if_neg hk] at hlook
      cases hrs0 : flookup k0 rs with
      | none =>
        rw [reconcileMismatches_cons_none _ _ _ _ _ hrs0] at hok
        cases hrec : reconcileMismatches true rs rest with
        | error e => rw [hrec] at hok; simp at hok
        | ok p =>
          obtain ⟨st', ms'⟩ := p
          rw [hrec] at hok
          simp at hok
          obtain ⟨h1, h2⟩ := hok
          obtain ⟨hv, hm⟩ := ih st' ms' hnd.2 hrec k t rt hlook hrs hsh
          exact ⟨by simp [← h1, hk, hv], by simp [← h2, hm]⟩
      | some rt0 =>
        by_cases hsh0 : t0.shape = rt0.shape
        · rw [reconcileMismatches_cons_match _ _ _ _ _ _ hrs0 hsh0] at hok
          cases hrec : reconcileMismatches true rs rest with
          | error e => rw [hrec] at hok; simp at hok
          | ok p =>
            obtain ⟨st', ms'⟩ := p
            rw [hrec] at hok
            simp at hok
            obtain ⟨h1, h2⟩ := hok
            obtain ⟨hv, hm⟩ := ih st' ms' hnd.2 hrec k t rt hlook hrs hsh
            exact ⟨by simp [← h1, hk, hv], by simp [← h2, hm]⟩
        · rw [reconcileMismatches_cons_mismatch_permissive _ _ _ _ _ hrs0 hsh0] at hok
          cases hrec : reconcileMismatches true rs rest with
          | error e => rw [hrec] at hok; simp at hok
          | ok p =>
            obtain ⟨st', ms'⟩ := p
            rw [hrec] at hok
            simp at hok
            obtain ⟨h1, h2⟩ := hok
            obtain ⟨hv, hm⟩ := ih st' ms' hnd.2 hrec k t rt hlook hrs hsh
            exact ⟨by simp [← h1, hk, hv], by simp [← h2, hm]⟩

/-- Lookup characterization of the reconciled dict: keys outside the
required set are absent; required keys carry the mismatch-pass value when the
checkpoint had the key, and the freshly initialized value otherwise. -/
theorem fromPretrainedReconcile_lookup (ig : Bool) (rs state : FlatDict)
    (hndr : (keysOf rs).Nodup) {final : FlatDict} {ms : List MismatchTriple}
    (h : fromPretrainedReconcile ig rs state = .ok (final, ms)) :
    ∃ st, reconcileMismatches ig rs state = .ok (st, ms) ∧
      keysOf st = keysOf state ∧
      ∀ k, flookup k final =
        if k ∈ keysOf rs then
          match flookup k st with
          | some t => some t
          | none => flookup k rs
        else none := by
  rw [fromPretrainedReconcile] at h
  cases hrec : reconcileMismatches ig rs state with
  | error e => rw [hrec] at h; simp at h
  | ok p =>
    obtain ⟨st, ms'⟩ := p
    rw [hrec] at h
    simp only [Except.ok.injEq, Prod.mk.injEq] at h
    obtain ⟨hfin, hms⟩ := h
    have hkeys := reconcileMismatches_keys ig rs state st ms' hrec
    refine ⟨st, by rw [hms], hkeys, ?_⟩
    intro k
    rw [← hfin]
    rw [flookup_filter_key (fun x => decide (x ∈ keysOf rs)) k]
    by_cases hreq : k ∈ keysOf rs
    · rw [if_pos (by simp [hreq]), if_pos hreq, flookup_append]
      cases hst : flookup k st with
      | some t => rfl
      | none =>
        have hkmiss : k ∈ (keysOf rs).filter (fun x => decide (x ∉ keysOf state)) := by
          rw [List.mem_filter]
          refine ⟨hreq, by simp [← hkeys, ← flookup_eq_none_iff, hst]⟩
        rw [flookup_filterMap_of_nodup (fun k' => flookup k' rs) k
          ((keysOf rs).filter (fun x => decide (x ∉ keysOf state)))
          (List.Nodup.filter _ hndr)]
        rw [if_pos hkmiss]
    · rw [if_neg (by simp [hreq]), if_neg hreq]

/-- C1: checkpoint reconciliation in `from_pretrained` never fails on
missing or unexpected keys (the only failure source is a shape mismatch
under the default strict mode): whenever mismatches are permitted or no
common key has a shape mismatch, loading succeeds, the reconciled flat
dict's key set is exactly the model's required-parameter set (the key set of
the freshly initialized `random_state`), every key missing from the
checkpoint carries its freshly-initialized value, and every key outside the
required set — in particular every unexpected checkpoint key — is absent. -/
theorem from_pretrained_reconciliation_key_set (ig : Bool)
    (random_state state : FlatDict) (hndr : (keysOf random_state).Nodup)
    (hok : ig = true ∨ ∀ k t rt, (k, t) ∈ state →
      flookup k random_state = some rt → t.shape = rt.shape) :
    ∃ final ms, fromPretrainedReconcile ig random_state state = .ok (final, ms) ∧
      (∀ k, k ∈ keysOf final ↔ k ∈ keysOf random_state) ∧
      (∀ k, k ∈ keysOf random_state → k ∉ keysOf state →
        flookup k final = flookup k random_state) ∧
      (∀ k, k ∉ keysOf random_state → flookup k final = none) := by
  have hrec : ∃ st ms, reconcileMismatches ig random_state state = .ok (st, ms) := by
    rcases hok with h | h
    · subst h
      exact reconcileMismatches_permissive_ok random_state state
    · exact reconcileMismatches_nomismatch_ok ig random_state state h
  obtain ⟨st, ms, hrec⟩ := hrec
  have hfp : ∃ final, fromPretrainedReconcile ig random_state state = .ok (final, ms) := by
    rw [fromPretrainedReconcile, hrec]
    exact ⟨_, rfl⟩
  obtain ⟨final, hfp⟩ := hfp
  obtain ⟨st', hrec', hkeys, hchar⟩ :=
    fromPretrainedReconcile_lookup ig random_state state hndr hfp
  refine ⟨final, ms, hfp, ?_, ?_, ?_⟩
  · intro k
    rw [← flookup_isSome_iff k final, hchar k]
    by_cases hreq : k ∈ keysOf random_state
    · rw [if_pos hreq]
      cases hst : flookup k st' with
      | some t => simp [hreq]
      | none => simp [hreq, flookup_isSome_iff]
    · simp [hreq]
  · intro k hreq hmiss
    rw [hchar k, if_pos hreq]
    have : flookup k st' = none := by
      rw [flookup_eq_none_iff, hkeys]
      exact hmiss
    rw [this]
  · intro k hreq
    rw [hchar k, if_neg hreq]

/-- C1 witness: a checkpoint missing key `a` and containing unexpected key
`c`, reconciled in permissive mode. -/
theorem from_pretrained_reconciliation_key_set_witness :
    (keysOf [(["a"], (⟨[2], 10⟩ : Tensor)), (["b"], ⟨[3], 11⟩)]).Nodup ∧
    ∃ final ms,
      fromPretrainedReconcile true
        [(["a"], ⟨[2], 10⟩), (["b"], ⟨[3], 11⟩)]
        [(["b"], ⟨[4], 20⟩), (["c"], ⟨[5], 21⟩)] = .ok (final, ms) ∧
      (∀ k, k ∈ keysOf final ↔
        k ∈ keysOf [(["a"], (⟨[2], 10⟩ : Tensor)), (["b"], ⟨[3], 11⟩)]) ∧
      (∀ k, k ∈ keysOf [(["a"], (⟨[2], 10⟩ : Tensor)), (["b"], ⟨[3], 11⟩)] →
        k ∉ keysOf [(["b"], (⟨[4], 20⟩ : Tensor)), (["c"], ⟨[5], 21⟩)] →
        flookup k final =
          flookup k [(["a"], ⟨[2], 10⟩), (["b"], ⟨[3], 11⟩)]) ∧
      (∀ k, k ∉ keysOf [(["a"], (⟨[2], 10⟩ : Tensor)), (["b"], ⟨[3], 11⟩)] →
        flookup k final = none) :=
  ⟨by decide,
    from_pretrained_reconciliation_key_set true
      [(["a"], ⟨[2], 10⟩), (["b"], ⟨[3], 11⟩)]
      [(["b"], ⟨[4], 20⟩), (["c"], ⟨[5], 21⟩)] (by decide) (Or.inl rfl)⟩

/-- C2: for a key present in both checkpoint and fresh parameter tree with
differing shapes — in strict mode (the default) reconciliation fails with a
`ValueError` naming an offending key, the checkpoint shape and the model
shape; in permissive mode it succeeds, the result holds the freshly
initialized tensor at that key, and the triple (key, checkpoint shape, model
shape) is recorded among the mismatched keys. -/
theorem shape_mismatch_behavior (random_state state : FlatDict) (k : Key)
    (t rt : Tensor) (hndr : (keysOf random_state).Nodup)
    (hnds : (keysOf state).Nodup)
    (hks : flookup k state = some t) (hkr : flookup k random_state = some rt)
    (hsh : t.shape ≠ rt.shape) :
    (∃ e : MismatchError,
      fromPretrainedReconcile false random_state state = .error e ∧
      ∃ t' rt', flookup e.key state = some t' ∧
        flookup e.key random_state = some rt' ∧
        e.checkpointShape = t'.shape ∧ e.modelShape = rt'.shape ∧
        t'.shape ≠ rt'.shape) ∧
    (∃ final ms,
      fromPretrainedReconcile true random_state state = .ok (final, ms) ∧
      flookup k final = some rt ∧ (k, t.shape, rt.shape) ∈ ms) := by
  constructor
  · obtain ⟨e, herr, hdata⟩ :=
      reconcileMismatches_error_of_mismatch random_state state hnds k t rt
        (mem_of_flookup_eq_some hks) hkr hsh
    exact ⟨e, by rw [fromPretrainedReconcile, herr], hdata⟩
  · obtain ⟨st, ms, hrec⟩ := reconcileMismatches_permissive_ok random_state state
    obtain ⟨hv, hm⟩ :=
      reconcileMismatches_permissive_value random_state state st ms hnds hrec
        k t rt hks hkr hsh
    have hfp : ∃ final, fromPretrainedReconcile true random_state state
        = .ok (final, ms) := by
      rw [fromPretrainedReconcile, hrec]
      exact ⟨_, rfl⟩
    obtain ⟨final, hfp⟩ := hfp
    obtain ⟨st', hrec', hkeys, hchar⟩ :=
      fromPretrainedReconcile_lookup true random_state state hndr hfp
    have hst : st' = st := by
      rw [hrec] at hrec'
      injection hrec' with h
      injection h with h1 h2
      exact h1.symm
    refine ⟨final, ms, hfp, ?_, hm⟩
    have hreq : k ∈ keysOf random_state :=
      (flookup_isSome_iff _ _).mp (by simp [hkr])
    rw [hchar k, if_pos hreq, hst, hv]

/-- C2 witness: key `b` has shape `[4]` in the checkpoint and `[3]` in the
model. -/
theorem shape_mismatch_behavior_witness :
    (flookup ["b"] [(["b"], (⟨[4], 20⟩ : Tensor)), (["c"], ⟨[5], 21⟩)]
        = some ⟨[4], 20⟩) ∧
    (∃ e : MismatchError,
      fromPretrainedReconcile false
        [(["a"], ⟨[2], 10⟩), (["b"], ⟨[3], 11⟩)]
        [(["b"], ⟨[4], 20⟩), (["c"], ⟨[5], 21⟩)] = .error e ∧
      ∃ t' rt',
        flookup e.key [(["b"], (⟨[4], 20⟩ : Tensor)), (["c"], ⟨[5], 21⟩)]
          = some t' ∧
        flookup e.key [(["a"], (⟨[2], 10⟩ : Tensor)), (["b"], ⟨[3], 11⟩)]
          = some rt' ∧
        e.checkpointShape = t'.shape ∧ e.modelShape = rt'.shape ∧
        t'.shape ≠ rt'.shape) ∧
    (∃ final ms,
      fromPretrainedReconcile true
        [(["a"], ⟨[2], 10⟩), (["b"], ⟨[3], 11⟩)]
        [(["b"], ⟨[4], 20⟩), (["c"], ⟨[5], 21⟩)] = .ok (final, ms) ∧
      flookup ["b"] final = some ⟨[3], 11⟩ ∧
      (["b"], [4], [3]) ∈ ms) :=
  ⟨by decide,
    shape_mismatch_behavior
      [(["a"], ⟨[2], 10⟩), (["b"], ⟨[3], 11⟩)]
      [(["b"], ⟨[4], 20⟩), (["c"], ⟨[5], 21⟩)]
      ["b"] ⟨[4], 20⟩ ⟨[3], 11⟩
      (by decide) (by decide) (by decide) (by decide) (by decide)⟩

/-- C7: for every configuration with a positive head count,
`FlaxBartAttention.setup` succeeds exactly when the embedding width is
divisible by the number of heads; on success the head width is
`embed_dim / num_heads`, otherwise setup raises the divisibility error. -/
theorem attention_head_divisibility (embed_dim num_heads : Nat)
    (hpos : 0 < num_heads) :
    ((∃ head_dim, attentionSetup embed_dim num_heads = .ok head_dim) ↔
      embed_dim % num_heads = 0) ∧
    (embed_dim % num_heads = 0 →
      attentionSetup embed_dim num_heads = .ok (embed_dim / num_heads)) ∧
    (embed_dim % num_heads ≠ 0 →
      attentionSetup embed_dim num_heads =
        .error "embed_dim must be divisible by num_heads") := by
  have hne : num_heads ≠ 0 := Nat.pos_iff_ne_zero.mp hpos
  have hiff : embed_dim / num_heads * num_heads = embed_dim ↔
      embed_dim % num_heads = 0 := by
    constructor
    · intro he
      have hdvd : num_heads ∣ embed_dim :=
        ⟨embed_dim / num_heads, ((Nat.mul_comm num_heads _).trans he).symm⟩
      exact Nat.dvd_iff_mod_eq_zero.mp hdvd
    · intro hm
      exact Nat.div_mul_cancel (Nat.dvd_of_mod_eq_zero hm)
  refine ⟨?_, ?_, ?_⟩
  · constructor
    · rintro ⟨hd, hok⟩
      rw [attentionSetup, if_neg hne] at hok
      by_cases hdv : embed_dim / num_heads * num_heads = embed_dim
      · exact hiff.mp hdv
      · rw [if_pos hdv] at hok
        simp at hok
    · intro hm
      refine ⟨embed_dim / num_heads, ?_⟩
      rw [attentionSetup, if_neg hne, if_neg (by simp [hiff.mpr hm])]
  · intro hm
    rw [attentionSetup, if_neg hne, if_neg (by simp [hiff.mpr hm])]
  · intro hm
    rw [attentionSetup, if_neg hne, if_pos (by rw [Ne, hiff]; exact hm)]

/-- C7 witness: `embed_dim = 8`, `num_heads = 4`. -/
theorem attention_head_divisibility_witness :
    0 < 4 ∧
    (((∃ head_dim, attentionSetup 8 4 = .ok head_dim) ↔ 8 % 4 = 0) ∧
    (8 % 4 = 0 → attentionSetup 8 4 = .ok (8 / 4)) ∧
    (8 % 4 ≠ 0 → attentionSetup 8 4 =
      .error "embed_dim must be divisible by num_heads")) :=
  ⟨by decide, attention_head_divisibility 8 4 (by decide)⟩

/-- C4: `decode` with `past_key_values` supplied but `decoder_position_ids`
omitted raises the `ValueError` immediately, for every combination of the
other optional arguments — the position ids are never silently defaulted. -/
theorem decode_cache_without_position_ids_fails (encBatch encSeq batch seq : Nat)
    (em dm : Option (List (List Int))) (cache : PastCache) :
    decodeResolveInputs encBatch encSeq batch seq em dm none (some cache) =
      .error "Make sure to provide `decoder_position_ids` when passing `past_key_values`." :=
  rfl

/-- C10: `decode` without a cache succeeds, defaulting an omitted encoder
mask to all ones over the encoder output shape, an omitted decoder mask to
all ones over `(batch, seq)`, and omitted position ids to the broadcast
range `0..seq-1`. -/
theorem decode_defaults_without_cache (encBatch encSeq batch seq : Nat)
    (em dm : Option (List (List Int))) :
    decodeResolveInputs encBatch encSeq batch seq em dm none none =
      .ok ⟨em.getD (onesMat encBatch encSeq), dm.getD (onesMat batch seq),
        broadcastRange batch seq⟩ ∧
    decodeResolveInputs encBatch encSeq batch seq none none none none =
      .ok ⟨onesMat encBatch encSeq, onesMat batch seq, broadcastRange batch seq⟩ :=
  ⟨rfl, rfl⟩

/-- C8: when deserialization of the checkpoint file fails, loading always
aborts with an error; the error is the specific git-lfs diagnostic exactly
when the file's text starts with the legacy marker `"version"`, and the
generic unable-to-convert diagnostic otherwise (including when the file is
not valid text at all). -/
theorem checkpoint_format_error_taxonomy (σ : Type) :
    (∀ decodedText : Option String,
      ∃ e, deserializeCheckpoint (σ := σ) none decodedText = .error e) ∧
    (∀ text : String, startsWithVersionMarker text = true →
      deserializeCheckpoint (σ := σ) none (some text) = .error .gitLfsPointer) ∧
    (∀ text : String, startsWithVersionMarker text = false →
      deserializeCheckpoint (σ := σ) none (some text) =
        .error .unableToConvert) ∧
    deserializeCheckpoint (σ := σ) none none = .error .unableToConvert := by
  refine ⟨?_, ?_, ?_, rfl⟩
  · intro decodedText
    cases decodedText with
    | none => exact ⟨.unableToConvert, rfl⟩
    | some text =>
      by_cases h : startsWithVersionMarker text
      · exact ⟨.gitLfsPointer, by simp [deserializeCheckpoint, h]⟩
      · exact ⟨.unableToConvert, by simp [deserializeCheckpoint, h]⟩
  · intro text h
    simp [deserializeCheckpoint, h]
  · intro text h
    simp [deserializeCheckpoint, h]

/-- C8 witness: a git-lfs pointer file and an undecodable one. -/
theorem checkpoint_format_error_taxonomy_witness :
    deserializeCheckpoint (σ := Nat) none (some "version https://git-lfs.github.com/spec/v1")
      = .error .gitLfsPointer ∧
    deserializeCheckpoint (σ := Nat) none (some "arbitrary bytes")
      = .error .unableToConvert :=
  ⟨(checkpoint_format_error_taxonomy Nat).2.1 _ (by decide),
   (checkpoint_format_error_taxonomy Nat).2.2.1 _ (by decide)⟩

/-!
### Cached autoregressive decoding

Modelled from the spec: the attention cache mechanics (`init_cache` and the
`_concatenate_to_cache` path of the attention module) live in the external
`transformers` library; this repository's `decode` only threads the cache
through.  Per the spec, each layer's cache holds fixed-size key/value
buffers plus a cursor; each cached call writes exactly one new position's
key/value projection at the cursor, advances the cursor by one, and attends
under the causal mask sliced at the cursor — so the query sees exactly the
positions up to and including the new one, and never reads the buffers
beyond the cursor.  The per-position computation downstream of the
projections (scores, softmax, output projection, feed-forward, `lm_head`) is
the black box `attend`, mapping the query projection and the visible
key/value pairs to that position's logits.
-/

section CachedDecoding

variable {α β : Type}

/-- Modelled from the spec: one layer's causal-attention cache — fixed-size
key/value buffers and a cursor counting the filled positions. -/
structure AttnCacheBuf (α : Type) where
  keyBuf : List α
  valBuf : List α
  cursor : Nat

/-- Modelled from the spec: a fresh cache pre-allocated to the maximum
generation length, zero-filled, cursor at zero. -/
def initAttnCache (maxLen : Nat) (z : α) : AttnCacheBuf α :=
  ⟨List.replicate maxLen z, List.replicate maxLen z, 0⟩

/-- Modelled from the spec: one cached decode step — write the new
position's key/value projections at the cursor, attend over the buffers
sliced at the advanced cursor (the causal mask), advance the cursor. -/
def cachedDecodeStep (kp vp qp : Int → α) (attend : α → List (α × α) → β)
    (c : AttnCacheBuf α) (t : Int) : β × AttnCacheBuf α :=
  let keyBuf := c.keyBuf.set c.cursor (kp t)
  let valBuf := c.valBuf.set c.cursor (vp t)
  let visible := (keyBuf.take (c.cursor + 1)).zip (valBuf.take (c.cursor + 1))
  (attend (qp t) visible, ⟨keyBuf, valBuf, c.cursor + 1⟩)

/-- Step-by-step cached decoding over a token list, collecting each step's
logits. -/
def cachedDecodeRun (kp vp qp : Int → α) (attend : α → List (α × α) → β) :
    AttnCacheBuf α → List Int → List β
  | _, [] => []
  | c, t :: ts =>
    let r := cachedDecodeStep kp vp qp attend c t
    r.1 :: cachedDecodeRun kp vp qp attend r.2 ts

/-- Modelled from the spec: uncached decoding over a full prefix — position
`i` attends, under the causal mask, to the key/value projections of
positions `0..i`. -/
def fullDecodeFrom (kp vp qp : Int → α) (attend : α → List (α × α) → β) :
    List Int → List Int → List β
  | _, [] => []
  | pre, t :: ts =>
    attend (qp t) (((pre ++ [t]).map kp).zip ((pre ++ [t]).map vp)) ::
      fullDecodeFrom kp vp qp attend (pre ++ [t]) ts

/-- Uncached decoding of a whole token sequence. -/
def fullDecode (kp vp qp : Int → α) (attend : α → List (α × α) → β)
    (ts : List Int) : List β :=
  fullDecodeFrom kp vp qp attend [] ts

theorem take_succ_set (x : α) :
    ∀ (n : Nat) (l : List α), n < l.length →
      (l.set n x).take (n + 1) = l.take n ++ [x]
  | _, [], h => absurd h (by simp)
  | 0, a :: l, _ => by simp
  | n + 1, a :: l, h => by
    simp only [List.set, List.take, List.cons_append, List.cons.injEq, true_and]
    exact take_succ_set x n l (by simpa using h)

theorem cachedDecodeRun_eq_fullDecodeFrom (kp vp qp : Int → α)
    (attend : α → List (α × α) → β) :
    ∀ (ts pre : List Int) (c : AttnCacheBuf α),
      c.cursor = pre.length →
      c.keyBuf.take c.cursor = pre.map kp →
      c.valBuf.take c.cursor = pre.map vp →
      pre.length + ts.length ≤ c.keyBuf.length →
      pre.length + ts.length ≤ c.valBuf.length →
      cachedDecodeRun kp vp qp attend c ts =
        fullDecodeFrom kp vp qp attend pre ts := by
  intro ts
  induction ts with
  | nil => intro pre c _ _ _ _ _; rfl
  | cons t ts ih =>
    intro pre c hcur hk hv hlk hlv
    obtain ⟨kb, vb, cur⟩ := c
    simp only at hcur hk hv hlk hlv
    subst hcur
    have hklt : pre.length < kb.length := by simp at hlk; omega
    have hvlt : pre.length < vb.length := by simp at hlv; omega
    rw [cachedDecodeRun, fullDecodeFrom]
    simp only [cachedDecodeStep]
    have hhead : (List.take (pre.length + 1) (kb.set pre.length (kp t))).zip
        (List.take (pre.length + 1) (vb.set pre.length (vp t))) =
        (List.map kp (pre ++ [t])).zip (List.map vp (pre ++ [t])) := by
      rw [take_succ_set _ _ _ hklt, take_succ_set _ _ _ hvlt, hk, hv]
      simp
    have htail : cachedDecodeRun kp vp qp attend
        ⟨kb.set pre.length (kp t), vb.set pre.length (vp t), pre.length + 1⟩ ts =
        fullDecodeFrom kp vp qp attend (pre ++ [t]) ts := by
      refine ih (pre ++ [t]) _ (by simp) ?_ ?_ ?_ ?_
      · show List.take (pre.length + 1) (kb.set pre.length (kp t)) = _
        rw [take_succ_set _ _ _ hklt, hk]; simp
      · show List.take (pre.length + 1) (vb.set pre.length (vp t)) = _
        rw [take_succ_set _ _ _ hvlt, hv]; simp
      · simp at hlk ⊢; omega
      · simp at hlv ⊢; omega
    rw [hhead, htail]

/-- C3: cached decoding equivalence — stepping the decoder one position at a
time through an incrementally filled cache produces, at every position, the
same logits as running the decoder once over the full prefix without a cache
and reading that position's output (in particular at the last position). -/
theorem cached_decoding_equivalence (kp vp qp : Int → α)
    (attend : α → List (α × α) → β) (z : α) (maxLen : Nat) (ts : List Int)
    (h : ts.length ≤ maxLen) :
    cachedDecodeRun kp vp qp attend (initAttnCache maxLen z) ts =
      fullDecode kp vp qp attend ts := by
  exact cachedDecodeRun_eq_fullDecodeFrom kp vp qp attend ts []
    (initAttnCache maxLen z) rfl (by simp [initAttnCache])
    (by simp [initAttnCache]) (by simp [initAttnCache]; omega)
    (by simp [initAttnCache]; omega)

/-- C3 witness: three decode steps against a cache of capacity four, with a
concrete quadratic `attend`. -/
theorem cached_decoding_equivalence_witness :
    ([5, 7, 9] : List Int).length ≤ 4 ∧
    cachedDecodeRun (fun t => t + 1) (fun t => 2 * t) (fun t => 3 * t)
      (fun q kvs => q + (kvs.map (fun kv => kv.1 * kv.2)).sum)
      (initAttnCache 4 0) [5, 7, 9] =
    fullDecode (fun t => t + 1) (fun t => 2 * t) (fun t => 3 * t)
      (fun q kvs => q + (kvs.map (fun kv => kv.1 * kv.2)).sum) [5, 7, 9] :=
  ⟨by decide,
    cached_decoding_equivalence (fun t => t + 1) (fun t => 2 * t)
      (fun t => 3 * t) (fun q kvs => q + (kvs.map (fun kv => kv.1 * kv.2)).sum)
      0 4 [5, 7, 9] (by decide)⟩

end CachedDecoding

/-!
### Output projection and the tied-embedding branch

`FlaxBartForConditionalGenerationModule.__call__` (lines 668-674) and the
`_decoder_forward` closure inside `decode` (lines 786-796) compute the
logits as `lm_head(hidden_states)` when embeddings are untied, and as
`lm_head.apply({"params": {"kernel": shared_embedding.T}}, hidden_states)`
with `shared_embedding = self.model.variables["params"]["shared"]["embedding"]`
when `config.tie_word_embeddings` is set.  Crucially, this repository's
`FlaxBartModule.setup` (lines 291-308) builds *separate* encoder and decoder
embedding tables, handed to the encoder/decoder submodules as their
`embed_tokens` children — it never registers a module named `shared`, so the
`"shared"` entry the tied branch dereferences does not exist in the
parameter tree.
-/

/-- A matrix as a row list of integer entries (reals are irrelevant to the
properties at stake). -/
abbrev Mat := List (List Int)

/-- Dot product. -/
def dotInt (xs ys : List Int) : Int := (List.zipWith (· * ·) xs ys).sum

/-- `y = x @ W` for a bias-free `nn.Dense` with kernel `W` given by rows:
one output entry per kernel column. -/
def denseNoBias (kernel : Mat) (h : List Int) : List Int :=
  kernel.transpose.map (dotInt h)

/-- Lookup in a variables tree flattened to full paths. -/
def varLookup {μ : Type} (path : List String) : List (List String × μ) → Option μ
  | [] => none
  | (p, m) :: rest => if p = path then some m else varLookup path rest

/-- The embedding tables created by `FlaxBartModule.setup`. -/
structure BartModuleParams where
  encoderEmbedTokens : Mat
  decoderEmbedTokens : Mat

/-- The `model` scope of `variables["params"]` as populated by
`FlaxBartModule.setup`: the two embedding tables live under the encoder and
decoder submodules; there is no `shared` entry. -/
def bartModuleVariables (p : BartModuleParams) : List (List String × Mat) :=
  [(["encoder", "embed_tokens", "embedding"], p.encoderEmbedTokens),
   (["decoder", "embed_tokens", "embedding"], p.decoderEmbedTokens)]

/-- Lines 668-674 (and identically 786-796): the logits of one decoder
hidden state.  The tied branch dereferences the `shared` table, which
`bartModuleVariables` must supply; a failed lookup is the Python `KeyError`. -/
def condGenLmLogits (tie_word_embeddings : Bool) (p : BartModuleParams)
    (lmHeadKernel : Mat) (h : List Int) : Option (List Int) :=
  if tie_word_embeddings then
    (varLookup ["shared", "embedding"] (bartModuleVariables p)).map
      (fun shared_embedding => denseNoBias shared_embedding.transpose h)
  else
    some (denseNoBias lmHeadKernel h)

/-- C5: the claim fails on the code — a model configured with tied word
embeddings never produces logits at all, because the tied branch looks up
`params["shared"]["embedding"]`, a key `FlaxBartModule.setup` never creates
(it registers separate `encoder`/`decoder` `embed_tokens` tables); an untied
model whose projection kernel is explicitly set to the transposed decoder
embedding table does produce logits, so the claimed equivalence cannot
hold. -/
theorem tied_embeddings_shared_table_missing (p : BartModuleParams)
    (lmHeadKernel : Mat) (h : List Int) :
    varLookup ["shared", "embedding"] (bartModuleVariables p) = none ∧
    condGenLmLogits true p lmHeadKernel h = none ∧
    condGenLmLogits false p p.decoderEmbedTokens.transpose h =
      some (denseNoBias p.decoderEmbedTokens.transpose h) :=
  ⟨rfl, rfl, rfl⟩

/-!
### Vocabulary sizing (`FlaxBartModule.setup`,
`FlaxBartForConditionalGenerationModule.setup`)
-/

/-- The configuration fields involved in the sizing claims. -/
structure DalleBartConfig where
  d_model : Nat
  encoder_vocab_size : Nat
  image_vocab_size : Nat
  image_length : Nat
  max_text_length : Nat

/-- Shape of an `nn.Embed` table. -/
structure EmbedShape where
  numEmbeddings : Nat
  features : Nat
deriving DecidableEq, Repr

/-- `FlaxBartModule.setup` line 292: `nn.Embed(encoder_vocab_size, d_model)`. -/
def encoderEmbedTokensShape (cfg : DalleBartConfig) : EmbedShape :=
  ⟨cfg.encoder_vocab_size, cfg.d_model⟩

/-- `FlaxBartModule.setup` line 297: `nn.Embed(image_vocab_size + 1, d_model)`
(`+ 1` reserves the beginning-of-sequence index). -/
def decoderEmbedTokensShape (cfg : DalleBartConfig) : EmbedShape :=
  ⟨cfg.image_vocab_size + 1, cfg.d_model⟩

/-- `FlaxBartForConditionalGenerationModule.setup` line 632: the output
feature count of `lm_head = nn.Dense(image_vocab_size + 1)`. -/
def lmHeadFeatures (cfg : DalleBartConfig) : Nat := cfg.image_vocab_size + 1

/-- A bias-free `nn.Dense(features)` applied to one hidden state: output
entry `j < features` is `Σᵢ hᵢ · W i j`. -/
def denseApply (features : Nat) (kernel : Nat → Nat → Int) (h : List Int) :
    List Int :=
  (List.range features).map (fun j =>
    ((List.range h.length).map (fun i => h.getD i 0 * kernel i j)).sum)

/-- C9: the decoder token-embedding table has `image_vocab_size + 1` rows,
and `lm_head` produces exactly `image_vocab_size + 1` logits for any hidden
state — the same size as the decoder input vocabulary. -/
theorem decoder_vocab_and_lm_head_size (cfg : DalleBartConfig)
    (w : Nat → Nat → Int) (h : List Int) :
    (decoderEmbedTokensShape cfg).numEmbeddings = cfg.image_vocab_size + 1 ∧
    (denseApply (lmHeadFeatures cfg) w h).length = cfg.image_vocab_size + 1 ∧
    (denseApply (lmHeadFeatures cfg) w h).length =
      (decoderEmbedTokensShape cfg).numEmbeddings := by
  simp [decoderEmbedTokensShape, denseApply, lmHeadFeatures]

/-!
### Generation bootstrap (`prepare_inputs_for_generation`, lines 838-871)
-/

/-- Running sums of a row starting from `acc` (`jnp.cumsum` along the last
axis). -/
def cumsumFrom (acc : Int) : List Int → List Int
  | [] => []
  | x :: xs => (acc + x) :: cumsumFrom (acc + x) xs

/-- `row.cumsum(axis=-1)`. -/
def cumsumRow (xs : List Int) : List Int := cumsumFrom 0 xs

/-- `lax.dynamic_update_slice` restricted to one row at start index 0: the
update overwrites the leading entries, the result keeps the base width. -/
def dynamicUpdateSliceRow (base upd : List Int) : List Int :=
  (upd ++ base.drop upd.length).take base.length

/-- `lax.dynamic_update_slice` on a 2-d operand at start `(0, 0)`. -/
def dynamicUpdateSlice2d (base upd : List (List Int)) : List (List Int) :=
  List.zipWith dynamicUpdateSliceRow (base.take upd.length) upd
    ++ base.drop upd.length

/-- The cache/mask/position-id bundle returned by the bootstrap (the
`encoder_outputs`/`encoder_attention_mask` entries are passed through
unchanged and carry no logic). -/
structure PreparedInputs where
  pastKeyValues : PastCache
  decoderAttentionMask : List (List Int)
  decoderPositionIds : List (List Int)
deriving DecidableEq, Repr

/-- Modelled from the spec for the externally defined `self.init_cache`: a
fresh cache with `maxLen` positions per decoder layer, every cursor at
zero. -/
def initCacheLayers (nLayers maxLen : Nat) : PastCache :=
  List.replicate nLayers ⟨maxLen, 0⟩

/-- `DalleBart.prepare_inputs_for_generation` (lines 838-871): allocate the
cache with `max_length - 1` positions, build the static width-`max_length-1`
ones mask (splicing in any supplied decoder mask at `(0, 0)`), and derive
position ids from the supplied mask's cumulative sum minus one, or as the
broadcast range when no mask is supplied. -/
def prepare_inputs_for_generation (nLayers batch seq_length max_length : Nat)
    (decoder_attention_mask : Option (List (List Int))) : PreparedInputs :=
  let past_key_values := initCacheLayers nLayers (max_length - 1)
  let extended_attention_mask := onesMat batch (max_length - 1)
  match decoder_attention_mask with
  | some m =>
    { pastKeyValues := past_key_values
      decoderAttentionMask := dynamicUpdateSlice2d extended_attention_mask m
      decoderPositionIds := m.map (fun r => (cumsumRow r).map (· - 1)) }
  | none =>
    { pastKeyValues := past_key_values
      decoderAttentionMask := extended_attention_mask
      decoderPositionIds := broadcastRange batch seq_length }

theorem cumsumFrom_eq_prefix_sums (acc : Int) :
    ∀ xs : List Int, cumsumFrom acc xs =
      (List.range xs.length).map (fun i => acc + (xs.take (i + 1)).sum) := by
  intro xs
  induction xs generalizing acc with
  | nil => rfl
  | cons x xs ih =>
    rw [cumsumFrom, ih (acc + x)]
    rw [List.length_cons, List.range_succ_eq_map]
    simp [Function.comp, add_assoc]

theorem zipWith_replicate_left {γ δ ε : Type} (f : γ → δ → ε) (a : γ) :
    ∀ (l : List δ) (n : Nat),
      List.zipWith f (List.replicate n a) l = (l.take n).map (f a) := by
  intro l
  induction l with
  | nil => intro n; simp
  | cons x xs ih =>
    intro n
    cases n with
    | zero => simp
    | succ n => simp [List.replicate_succ, ih n]

theorem dynamicUpdateSliceRow_ones (w : Nat) (r : List Int)
    (hfit : r.length ≤ w) :
    dynamicUpdateSliceRow (List.replicate w (1 : Int)) r =
      r ++ List.replicate (w - r.length) 1 := by
  rw [dynamicUpdateSliceRow, List.drop_replicate]
  apply List.take_of_length_le
  simp [hfit]

/-- C6: the generation bootstrap returns (a) a fresh cache with
`max_length - 1` positions per layer and all cursors at zero, (b) a decoder
attention mask of width `max_length - 1` equal to the supplied prefix mask
extended by ones (all ones when no mask is supplied), and (c) position ids
whose entry `i` is the number of mask ones among positions `0..i` minus one
(so masked positions consume no index) when a mask is supplied, and the
plain broadcast range `0..seq_length-1` otherwise. -/
theorem prepare_inputs_bootstrap (nLayers batch seq_length max_length : Nat)
    (mask : List (List Int)) (hrows : mask.length = batch)
    (hcols : ∀ r ∈ mask, r.length = seq_length)
    (hfit : seq_length ≤ max_length - 1) :
    ((prepare_inputs_for_generation nLayers batch seq_length max_length
        (some mask)).pastKeyValues =
        List.replicate nLayers ⟨max_length - 1, 0⟩ ∧
      (prepare_inputs_for_generation nLayers batch seq_length max_length
        none).pastKeyValues =
        List.replicate nLayers ⟨max_length - 1, 0⟩) ∧
    ((prepare_inputs_for_generation nLayers batch seq_length max_length
        (some mask)).decoderAttentionMask =
        mask.map (fun r => r ++ List.replicate (max_length - 1 - seq_length) 1) ∧
      (prepare_inputs_for_generation nLayers batch seq_length max_length
        none).decoderAttentionMask = onesMat batch (max_length - 1)) ∧
    ((prepare_inputs_for_generation nLayers batch seq_length max_length
        (some mask)).decoderPositionIds =
        mask.map (fun r =>
          (List.range r.length).map (fun i => (r.take (i + 1)).sum - 1)) ∧
      (prepare_inputs_for_generation nLayers batch seq_length max_length
        none).decoderPositionIds = broadcastRange batch seq_length) := by
  refine ⟨⟨rfl, rfl⟩, ⟨?_, rfl⟩, ⟨?_, rfl⟩⟩
  · show dynamicUpdateSlice2d (onesMat batch (max_length - 1)) mask = _
    rw [dynamicUpdateSlice2d, onesMat, ← hrows, List.take_replicate,
      List.drop_replicate, Nat.min_self, Nat.sub_self, List.replicate_zero,
      List.append_nil, zipWith_replicate_left, List.take_of_length_le le_rfl]
    apply List.map_congr_left
    intro r hr
    rw [dynamicUpdateSliceRow_ones _ _ (by rw [hcols r hr]; exact hfit),
      hcols r hr]
  · show mask.map (fun r => (cumsumRow r).map (· - 1)) = _
    apply List.map_congr_left
    intro r _
    rw [cumsumRow, cumsumFrom_eq_prefix_sums, List.map_map]
    apply List.map_congr_left
    intro i _
    simp

/-- C6 witness: two layers, batch two, a two-token prefix with one masked
position, target length four. -/
theorem prepare_inputs_bootstrap_witness :
    ([[1, 0], [1, 1]] : List (List Int)).length = 2 ∧
    (∀ r ∈ ([[1, 0], [1, 1]] : List (List Int)), r.length = 2) ∧
    2 ≤ 4 - 1 ∧
    (((prepare_inputs_for_generation 2 2 2 4 (some [[1, 0], [1, 1]])).pastKeyValues
        = List.replicate 2 ⟨3, 0⟩ ∧
      (prepare_inputs_for_generation 2 2 2 4 none).pastKeyValues
        = List.replicate 2 ⟨3, 0⟩) ∧
    ((prepare_inputs_for_generation 2 2 2 4 (some [[1, 0], [1, 1]])).decoderAttentionMask
        = ([[1, 0], [1, 1]] : List (List Int)).map
            (fun r => r ++ List.replicate (4 - 1 - 2) 1) ∧
      (prepare_inputs_for_generation 2 2 2 4 none).decoderAttentionMask
        = onesMat 2 (4 - 1)) ∧
    ((prepare_inputs_for_generation 2 2 2 4 (some [[1, 0], [1, 1]])).decoderPositionIds
        = ([[1, 0], [1, 1]] : List (List Int)).map
            (fun r => (List.range r.length).map (fun i => (r.take (i + 1)).sum - 1)) ∧
      (prepare_inputs_for_generation 2 2 2 4 none).decoderPositionIds
        = broadcastRange 2 2)) :=
  ⟨by decide, by decide, by decide,
    prepare_inputs_bootstrap 2 2 2 4 [[1, 0], [1, 1]] (by decide) (by decide)
      (by decide)⟩

end DalleBart
